import Mathlib

/-!
Verification development for the pepe-grillo sound-bot repository.

The definitions below are a shallow embedding of the playback/cache/voice
subsystem:

* `B64` models the base64 codec used by `CacheService` when storing audio
  buffers in Redis (`audioBuffer.toString('base64')` on write and
  `Buffer.from(cached, 'base64')` on read).
* `CacheService` embeds `src/database/CacheService.js` (`getAudio`,
  `setAudio`, `clearAudio`) over an explicit Redis-client model.
* `AudioService` embeds the fetch/play/cache-populate section of
  `playSound` in `src/discord/services/AudioService.js`.
* `VoiceService` embeds `src/services/VoiceService.js` (`playAudio`,
  `disconnect`, `scheduleDisconnect` and the player event handlers) as a
  step function over an explicit state, with an event trace.
* `SoundRepository` embeds `src/database/SoundRepository.js` over a list
  model of the `guild_sounds` table.
-/

namespace AMap

/-- Association-list lookup, used to model JS `Map.get` and keyed storage. -/
def mlookup {κ α : Type} [DecidableEq κ] : List (κ × α) → κ → Option α
  | [], _ => none
  | (k, v) :: r, k' => if k = k' then some v else mlookup r k'

/-- Association-list update, modelling JS `Map.set` / Redis `SET`. -/
def mset {κ α : Type} [DecidableEq κ] (m : List (κ × α)) (k : κ) (v : α) :
    List (κ × α) :=
  (k, v) :: m.filter (fun p => decide (p.1 ≠ k))

/-- Association-list removal, modelling JS `Map.delete` / Redis `DEL`. -/
def mdel {κ α : Type} [DecidableEq κ] (m : List (κ × α)) (k : κ) :
    List (κ × α) :=
  m.filter (fun p => decide (p.1 ≠ k))

end AMap

namespace B64

/-- Base64 encoding of a byte sequence as the sequence of 6-bit groups
(sextets) produced by Node's `buffer.toString('base64')`; a final group of
one or two bytes yields two or three sextets (the `=` padding carries no
data and is omitted from the model). -/
def b64chunks : List Nat → List Nat
  | a :: b :: c :: rest =>
      a / 4 :: ((a % 4) * 16 + b / 16) :: ((b % 16) * 4 + c / 64) :: c % 64 ::
        b64chunks rest
  | [a, b] => [a / 4, (a % 4) * 16 + b / 16, (b % 16) * 4]
  | [a] => [a / 4, (a % 4) * 16]
  | [] => []

/-- Base64 decoding of a sextet sequence back to bytes, as performed by
`Buffer.from(s, 'base64')`: each aligned group of four sextets yields three
bytes, a trailing group of three sextets yields two bytes and a trailing
group of two sextets yields one byte. -/
def b64dec : List Nat → List Nat
  | s1 :: s2 :: s3 :: s4 :: rest =>
      (s1 * 4 + s2 / 16) :: ((s2 % 16) * 16 + s3 / 4) :: ((s3 % 4) * 64 + s4) ::
        b64dec rest
  | [s1, s2, s3] => [s1 * 4 + s2 / 16, (s2 % 16) * 16 + s3 / 4]
  | [s1, s2] => [s1 * 4 + s2 / 16]
  | _ => []


end B64

namespace CacheService

open AMap B64

/-- One Redis value: the stored base64 string (as its sextet list) and the
absolute expiry instant set via the `EX` option. -/
structure Entry where
  val : List Nat
  expiresAt : Nat
deriving DecidableEq

/-- Model of the Redis client used by `CacheService`: a keyed store plus
per-operation failure flags (a flag set means the corresponding client call
rejects, exercising the `catch` blocks of `CacheService`). -/
structure Client where
  getFails : Bool
  setFails : Bool
  delFails : Bool
  store : List (String × Entry)
deriving DecidableEq

/-- `client.get(key)` at instant `now`: absent or expired keys read as
`null`; a failing client rejects. -/
def clientGet (c : Client) (key : String) (now : Nat) :
    Except Unit (Option (List Nat)) :=
  if c.getFails then .error ()
  else
    match mlookup c.store key with
    | some e => if now < e.expiresAt then .ok (some e.val) else .ok none
    | none => .ok none

/-- `client.set(key, value, { EX: ttl })` at instant `now`. -/
def clientSet (c : Client) (key : String) (v : List Nat) (ttl now : Nat) :
    Except Unit Client :=
  if c.setFails then .error ()
  else .ok { c with store := mset c.store key ⟨v, now + ttl⟩ }

/-- `client.del(key)`. -/
def clientDel (c : Client) (key : String) : Except Unit Client :=
  if c.delFails then .error ()
  else .ok { c with store := mdel c.store key }

/-- `getCacheKey(soundUrl)` from `CacheService.js`. -/
def getCacheKey (soundUrl : String) : String :=
  "audio:" ++ soundUrl

/-- `getAudio(soundUrl)` from `CacheService.js`: skips the read when not
connected, catches any client error and returns `null`, treats an empty
cached string as a miss (the JS truthiness test `if (cached)`), and decodes
the stored base64 string back to a buffer. The `Except` result mirrors the
promise: `.error` would be a rejection escaping to the caller. -/
def getAudio (connected : Bool) (c : Client) (soundUrl : String) (now : Nat) :
    Except Unit (Option (List Nat)) :=
  if !connected then .ok none
  else
    match clientGet c (getCacheKey soundUrl) now with
    | .error _ => .ok none
    | .ok none => .ok none
    | .ok (some cached) =>
        if cached ≠ [] then .ok (some (b64dec cached)) else .ok none

/-- `setAudio(soundUrl, audioBuffer, ttl = 604800)` from `CacheService.js`:
skips the write when not connected and catches any client error (the write
is best-effort); on success stores the base64 encoding with expiry
`now + ttl`. Returns the client state after the call. -/
def setAudio (connected : Bool) (c : Client) (soundUrl : String)
    (audioBuffer : List Nat) (ttl : Nat := 604800) (now : Nat := 0) :
    Except Unit Client :=
  if !connected then .ok c
  else
    match clientSet c (getCacheKey soundUrl) (b64chunks audioBuffer) ttl now with
    | .error _ => .ok c
    | .ok c2 => .ok c2

/-- `clearAudio(soundUrl)` from `CacheService.js`. -/
def clearAudio (connected : Bool) (c : Client) (soundUrl : String) :
    Except Unit Client :=
  if !connected then .ok c
  else
    match clientDel c (getCacheKey soundUrl) with
    | .error _ => .ok c
    | .ok c2 => .ok c2

end CacheService

namespace AudioService

open CacheService

/-- Provenance of the audio bytes returned by the fetch path. -/
inductive Provenance
  | cache
  | network
deriving DecidableEq

/-- Result of the fetch/play/cache-populate section of
`AudioService.playSound`. -/
structure PlaySoundRes where
  success : Bool
  provenance : Option Provenance
  bytes : Option (List Nat)
  downloaderCalls : Nat
deriving DecidableEq

/-- The fetch/play/cache-populate section of `playSound` in
`AudioService.js` (lines 85-157): query the cache via
`cacheService.getAudio`; on a miss invoke the downloader
(`scraperService.downloadSound`, modelled by its result `download`); then
hand the buffer to `voiceService.playAudio` (outcome modelled by `playOk`);
if playback started and the buffer came from the network, trigger
`cacheService.setAudio` with its failure swallowed by `.catch`. Returns the
outcome and the client state after the call. -/
def playSound (connected : Bool) (c : Client) (soundUrl : String)
    (download : Except Unit (List Nat)) (playOk : Bool) (now : Nat) :
    PlaySoundRes × Client :=
  match getAudio connected c soundUrl now with
  | .error _ => (⟨false, none, none, 0⟩, c)
  | .ok (some buf) =>
      if playOk then (⟨true, some .cache, some buf, 0⟩, c)
      else (⟨false, some .cache, some buf, 0⟩, c)
  | .ok none =>
      match download with
      | .error _ => (⟨false, none, none, 1⟩, c)
      | .ok buf =>
          if playOk then
            match setAudio connected c soundUrl buf 604800 now with
            | .error _ => (⟨true, some .network, some buf, 1⟩, c)
            | .ok c2 => (⟨true, some .network, some buf, 1⟩, c2)
          else (⟨false, some .network, some buf, 1⟩, c)

end AudioService

namespace VoiceService

open AMap

/-- `config.bot.autoDisconnectDelay` from `config.js`: 15 minutes in ms. -/
def autoDisconnectDelay : Nat := 15 * 60 * 1000

/-- The bound passed to `entersState(connection, Ready, 30_000)`. -/
def joinTimeoutMs : Nat := 30000

/-- Guilds are opaque identifiers. -/
abbrev GuildId := Nat

/-- A temporary audio file `temp_<stamp>.mp3`; the first component records
the guild of the `playAudio` call that created it (the `Date.now()` stamp
makes names unique per call). -/
abbrev FileId := GuildId × Nat

/-- `VoiceConnectionStatus` of `@discordjs/voice`. -/
inductive ConnStatus
  | signalling
  | connecting
  | ready
  | disconnected
  | destroyed
deriving DecidableEq

/-- The value stored in `this.connections` for a guild: the connection and
player handles plus the connection status; `errTmp` is the `tempFile`
captured by the `player.on('error', ...)` closure registered when the
player was created. -/
structure ConnData where
  connId : Nat
  playerId : Nat
  status : ConnStatus
  errTmp : FileId
deriving DecidableEq

/-- The typed failures `playAudio` can surface ("Failed to join voice
channel: ..." and "Failed to play audio: ..."). -/
inductive PlayErr
  | joinTimeout
  | playback
deriving DecidableEq

/-- Observable events of the voice subsystem, in execution order. -/
inductive Ev
  | created (f : FileId)
  | joined (g : GuildId) (c : Nat)
  | reused (g : GuildId) (c : Nat)
  | destroyedConn (c : Nat)
  | unlinked (f : FileId)
  | unlinkNoop (f : FileId)
  | played (g : GuildId) (f : FileId)
  | armedTimer (g : GuildId) (deadline : Nat)
  | teardown (g : GuildId)
  | failed (g : GuildId) (e : PlayErr)
deriving DecidableEq

/-- The process state owned by the `VoiceService` instance: the two
per-guild maps from its constructor, the temp directory contents, the
current instant, a fresh-handle counter and the event log. -/
structure VState where
  connections : List (GuildId × ConnData)
  disconnectTimers : List (GuildId × Nat)
  files : List FileId
  now : Nat
  nextId : Nat
  events : List Ev
deriving DecidableEq

/-- `await unlink(file).catch(() => {})`: removes the file if it exists;
an `ENOENT` failure is swallowed. -/
def unlinkF (s : VState) (f : FileId) : VState :=
  if f ∈ s.files then
    { s with files := s.files.erase f, events := s.events ++ [.unlinked f] }
  else
    { s with events := s.events ++ [.unlinkNoop f] }

/-- `scheduleDisconnect(guildId)`: clears any existing timer for the guild
and arms a new one firing `autoDisconnectDelay` ms from now. -/
def scheduleDisconnect (s : VState) (g : GuildId) : VState :=
  { s with
      disconnectTimers := mset s.disconnectTimers g (s.now + autoDisconnectDelay),
      events := s.events ++ [.armedTimer g (s.now + autoDisconnectDelay)] }

/-- The `setTimeout` callback armed by `scheduleDisconnect`, firing at its
deadline: if the guild still has connection data (whatever its activity),
destroy the connection and drop both map entries; otherwise do nothing
(note the timer map entry is then left in place). -/
def timerFire (s : VState) (g : GuildId) : VState :=
  match mlookup s.disconnectTimers g with
  | none => s
  | some d =>
      if s.now = d then
        match mlookup s.connections g with
        | none => s
        | some cd =>
            { s with
                connections := mdel s.connections g,
                disconnectTimers := mdel s.disconnectTimers g,
                events := s.events ++ [.destroyedConn cd.connId, .teardown g] }
      else s

/-- `disconnect(guildId)`: returns `false` when no session exists;
otherwise clears any pending timer, destroys the connection and removes
the session entry. -/
def disconnect (s : VState) (g : GuildId) : VState × Bool :=
  match mlookup s.connections g with
  | none => (s, false)
  | some cd =>
      ({ s with
          connections := mdel s.connections g,
          disconnectTimers := mdel s.disconnectTimers g,
          events := s.events ++ [.destroyedConn cd.connId, .teardown g] },
        true)

/-- The simulated outcome of one `playAudio` call: normal playback, the
30s join timeout, a mid-stream player error, or an unexpected exception
reaching the catch-all after the temp file was created. -/
inductive Outcome
  | success
  | joinTimeout
  | playerError
  | exception
deriving DecidableEq

/-- The reuse test of `playAudio`: the stored connection data, provided its
status is not `Destroyed`. -/
def livable (s : VState) (g : GuildId) : Option ConnData :=
  match mlookup s.connections g with
  | some cd => if cd.status ≠ .destroyed then some cd else none
  | none => none

/-- The synchronous body of `playAudio(voiceChannel, guildId,
voiceAdapterCreator, audioBuffer, soundTitle)`: write the buffer to a fresh
temp file; reuse the guild's live connection, or join and wait for Ready —
on timeout destroy the (not yet registered) connection, unlink the temp
file and throw, the outer catch unlinking again (a no-op) before
rethrowing; on a fresh join success create the player, register its error
handler (capturing this call's temp file) and store the session; finally
create the resource and start playing. An `Outcome.exception` models any
unexpected exception reaching the catch-all, which unlinks the temp file
and rethrows. Completion and error handlers are separate steps
(`idleFire`, `errorFire`). -/
def playAudio (s : VState) (g : GuildId) (tmp : FileId) (o : Outcome) :
    VState × Option PlayErr :=
  let s1 : VState :=
    { s with files := tmp :: s.files, events := s.events ++ [.created tmp] }
  if o = .exception then
    let s2 := unlinkF s1 tmp
    ({ s2 with events := s2.events ++ [.failed g .playback] }, some .playback)
  else
    match livable s1 g with
    | some cd =>
        ({ s1 with events := s1.events ++ [.reused g cd.connId, .played g tmp] },
          none)
    | none =>
        let c := s1.nextId
        let s2 : VState :=
          { s1 with nextId := s1.nextId + 2, events := s1.events ++ [.joined g c] }
        if o = .joinTimeout then
          let s3 : VState := { s2 with events := s2.events ++ [.destroyedConn c] }
          let s4 := unlinkF s3 tmp
          let s5 := unlinkF s4 tmp
          ({ s5 with events := s5.events ++ [.failed g .joinTimeout] },
            some .joinTimeout)
        else
          let cd : ConnData := ⟨c, c + 1, .ready, tmp⟩
          ({ s2 with
              connections := mset s2.connections g cd,
              events := s2.events ++ [.played g tmp] },
            none)

/-- The `player.once(AudioPlayerStatus.Idle, ...)` handler registered for
the call that played `tmp`: unlink the temp file, then re-arm the idle
timer. -/
def idleFire (s : VState) (g : GuildId) (tmp : FileId) : VState :=
  scheduleDisconnect (unlinkF s tmp) g

/-- A mid-stream player error while `tmp` is playing: the
`player.on('error', ...)` handler unlinks the temp file it captured when
the player was created and re-arms the idle timer; the player then enters
Idle, so the pending `once(Idle)` handler for the current resource also
runs. -/
def errorFire (s : VState) (g : GuildId) (tmp : FileId) : VState :=
  match mlookup s.connections g with
  | none => s
  | some cd => idleFire (scheduleDisconnect (unlinkF s cd.errTmp) g) g tmp

/-- One interleaving step of the voice subsystem. -/
inductive Act
  | play (g : GuildId) (tmp : FileId) (o : Outcome)
  | finish (g : GuildId) (tmp : FileId)
  | errorAt (g : GuildId) (tmp : FileId)
  | fire (g : GuildId)
  | stop (g : GuildId)
  | tick (n : Nat)
deriving DecidableEq

def stepAct (s : VState) : Act → VState
  | .play g tmp o => (playAudio s g tmp o).1
  | .finish g tmp => idleFire s g tmp
  | .errorAt g tmp => errorFire s g tmp
  | .fire g => timerFire s g
  | .stop g => (disconnect s g).1
  | .tick n => { s with now := s.now + n }

def runActs (s : VState) (acts : List Act) : VState :=
  acts.foldl stepAct s

/-- The full lifecycle of one `playAudio` call under a given simulated
outcome: a successful call is followed by its Idle handler; a mid-stream
player error by the error/Idle handlers; the join-timeout and exception
outcomes finish inside the call itself. -/
def callScript (g : GuildId) (tmp : FileId) : Outcome → List Act
  | .success => [.play g tmp .success, .finish g tmp]
  | .joinTimeout => [.play g tmp .joinTimeout]
  | .playerError => [.play g tmp .playerError, .errorAt g tmp]
  | .exception => [.play g tmp .exception]

/-- Well-formedness of the session map: the temp file captured by a
guild's player error handler was created by a `playAudio` call for that
same guild (true of every state the service can reach, since the handler
is registered by the call that joins for its own guild). -/
def ConnWF (s : VState) : Prop :=
  ∀ g cd, AMap.mlookup s.connections g = some cd → cd.errTmp.1 = g

/-- The steps belonging to guild `A`: voice operations addressed to `A`
whose temp files were created by `A`-calls; clock ticks belong to every
guild. -/
def actsFor (A : GuildId) : Act → Prop
  | .play g tmp _ => g = A ∧ tmp.1 = A
  | .finish g tmp => g = A ∧ tmp.1 = A
  | .errorAt g tmp => g = A ∧ tmp.1 = A
  | .fire g => g = A
  | .stop g => g = A
  | .tick _ => True

end VoiceService

namespace SoundRepository

/-- `config.bot.maxSoundsPerGuild` from `config.js`. -/
def maxSoundsPerGuild : Nat := 100

/-- One row of the `guild_sounds` table (`id` is a `SERIAL` primary key,
so ids are pairwise distinct; `created_at` defaults to the insertion
instant). -/
structure SoundRecord where
  id : Nat
  guildId : Nat
  soundUrl : String
  title : String
  originalUrl : String
  createdAt : Nat
deriving DecidableEq

/-- The database: the rows of `guild_sounds` plus the sequence backing the
`SERIAL` id column. -/
structure SoundDB where
  rows : List SoundRecord
  nextRowId : Nat
deriving DecidableEq

/-- Primary-key integrity of `guild_sounds`: row ids are pairwise distinct.
-/
def RowsWF (db : SoundDB) : Prop :=
  db.rows.Pairwise (fun r1 r2 => r1.id ≠ r2.id)

/-- `WHERE guild_id = $1`. -/
def guildRows (db : SoundDB) (g : Nat) : List SoundRecord :=
  db.rows.filter (fun r => decide (r.guildId = g))

/-- `isDuplicate(guildId, soundUrl)`: `SELECT COUNT(*) ... WHERE guild_id
= $1 AND sound_url = $2` compared against zero. -/
def isDuplicate (db : SoundDB) (g : Nat) (soundUrl : String) : Bool :=
  (guildRows db g).any (fun r => decide (r.soundUrl = soundUrl))

/-- `getCount(guildId)`: `SELECT COUNT(*) ... WHERE guild_id = $1`. -/
def getCount (db : SoundDB) (g : Nat) : Nat :=
  (guildRows db g).length

/-- The row selected by `SELECT id ... WHERE guild_id = $1 ORDER BY
created_at ASC LIMIT 1`: a guild row of minimal `created_at` (the first
such row in table order when instants tie). -/
def oldestRow (db : SoundDB) (g : Nat) : Option SoundRecord :=
  match guildRows db g with
  | [] => none
  | r :: rs =>
      some (rs.foldl (fun best x => if x.createdAt < best.createdAt then x else best) r)

/-- `removeOldest(guildId)`: `DELETE FROM guild_sounds WHERE id = (...)`. -/
def removeOldest (db : SoundDB) (g : Nat) : SoundDB :=
  match oldestRow db g with
  | none => db
  | some old => { db with rows := db.rows.filter (fun r => decide (r.id ≠ old.id)) }

/-- `addSound(guildId, soundData)` from `SoundRepository.js`: return `null`
on a duplicate `(guild_id, sound_url)`; evict the oldest guild row when the
guild already holds `maxSoundsPerGuild` records; insert the new row with a
fresh id and `created_at = now`. -/
def addSound (db : SoundDB) (g : Nat) (soundUrl title originalUrl : String)
    (now : Nat) : SoundDB × Option SoundRecord :=
  if isDuplicate db g soundUrl then (db, none)
  else
    let db1 := if maxSoundsPerGuild ≤ getCount db g then removeOldest db g else db
    let row : SoundRecord := ⟨db1.nextRowId, g, soundUrl, title, originalUrl, now⟩
    ({ rows := db1.rows ++ [row], nextRowId := db1.nextRowId + 1 }, some row)

/-- `getSounds(guildId)`: `SELECT * ... WHERE guild_id = $1 ORDER BY
created_at DESC LIMIT maxSoundsPerGuild`. -/
def getSounds (db : SoundDB) (g : Nat) : List SoundRecord :=
  ((guildRows db g).mergeSort
      (fun r1 r2 => decide (r2.createdAt ≤ r1.createdAt))).take maxSoundsPerGuild

/-- `getSoundByIndex(guildId, index)`: `sounds[index] || null` — a
negative or out-of-range subscript reads `undefined`, which `|| null`
turns into `null`; sound records themselves are truthy objects. -/
def getSoundByIndex (db : SoundDB) (g : Nat) (index : Int) : Option SoundRecord :=
  if index < 0 then none else (getSounds db g).get? index.toNat

end SoundRepository

/-! ### Helper lemmas -/

namespace AMap

theorem mlookup_filter_ne {κ α : Type} [DecidableEq κ] (m : List (κ × α)) (k k' : κ)
    (h : k' ≠ k) :
    mlookup (m.filter (fun p => decide (p.1 ≠ k))) k' = mlookup m k' := by
  induction m with
  | nil => rfl
  | cons p r ih =>
    by_cases hp : p.1 = k
    · have : (decide (p.1 ≠ k)) = false := by simp [hp]
      cases p with
      | mk pk pv =>
        simp only [List.filter_cons, this, ite_false, cond_false]
        simp only [mlookup]
        have hne : ¬ (pk = k') := by
          intro he
          exact h (by rw [← he]; exact hp)
        rw [if_neg hne]
        exact ih
    · have : (decide (p.1 ≠ k)) = true := by simp [hp]
      cases p with
      | mk pk pv =>
        simp only [List.filter_cons, this, cond_true]
        simp only [mlookup]
        by_cases he : pk = k'
        · rw [if_pos he, if_pos he]
        · rw [if_neg he, if_neg he]
          exact ih

@[simp]
theorem mlookup_mset_self {κ α : Type} [DecidableEq κ] (m : List (κ × α)) (k : κ) (v : α) :
    mlookup (mset m k v) k = some v := by
  simp [mset, mlookup]

theorem mlookup_mset_ne {κ α : Type} [DecidableEq κ] (m : List (κ × α)) (k k' : κ) (v : α)
    (h : k' ≠ k) :
    mlookup (mset m k v) k' = mlookup m k' := by
  simp only [mset, mlookup]
  rw [if_neg (fun he => h he.symm)]
  exact mlookup_filter_ne m k k' h

@[simp]
theorem mlookup_mdel_self {κ α : Type} [DecidableEq κ] (m : List (κ × α)) (k : κ) :
    mlookup (mdel m k) k = none := by
  induction m with
  | nil => rfl
  | cons p r ih =>
    cases p with
    | mk pk pv =>
      by_cases hp : pk = k
      · simp only [mdel, List.filter_cons, hp]
        simpa [mdel] using ih
      · simp only [mdel, List.filter_cons]
        have : (decide ((pk, pv).1 ≠ k)) = true := by simp [hp]
        rw [this]
        simp only [cond_true, mlookup]
        rw [if_neg hp]
        simpa [mdel] using ih

theorem mlookup_mdel_ne {κ α : Type} [DecidableEq κ] (m : List (κ × α)) (k k' : κ)
    (h : k' ≠ k) :
    mlookup (mdel m k) k' = mlookup m k' :=
  mlookup_filter_ne m k k' h

end AMap

namespace B64

theorem b64_roundtrip : ∀ l : List Nat, (∀ x ∈ l, x < 256) →
    b64dec (b64chunks l) = l
  | [], _ => by simp [b64chunks, b64dec]
  | [a], h => by
    have ha : a < 256 := h a (by simp)
    simp only [b64chunks, b64dec, List.cons.injEq, and_true]
    omega
  | [a, b], h => by
    have ha : a < 256 := h a (by simp)
    have hb : b < 256 := h b (by simp)
    simp [b64chunks, b64dec]
    omega
  | a :: b :: c :: rest, h => by
    have ha : a < 256 := h a (by simp)
    have hb : b < 256 := h b (by simp)
    have hc : c < 256 := h c (by simp)
    have ih := b64_roundtrip rest (fun x hx => h x (by simp [hx]))
    simp [b64chunks, b64dec, ih]
    omega

theorem b64chunks_ne_nil : ∀ l : List Nat, l ≠ [] → b64chunks l ≠ []
  | [], h => absurd rfl h
  | [_], _ => by simp [b64chunks]
  | [_, _], _ => by simp [b64chunks]
  | _ :: _ :: _ :: _, _ => by simp [b64chunks]

end B64

/-! ### Claim theorems -/

namespace CacheService

open AMap B64

/-- C4: cache failures never propagate to the caller: `getAudio` always
resolves (never rejects) and resolves to `null` (a miss) when the client is
failing or disconnected; `setAudio` always resolves; and when the cache
backend's write fails, `playSound` still succeeds with the downloaded
bytes after a miss. -/
theorem cache_failures_never_propagate (connected : Bool) (c : Client)
    (soundUrl : String) (buf dl : List Nat) (ttl now : Nat) :
    (∃ v, getAudio connected c soundUrl now = .ok v)
    ∧ (c.getFails = true → getAudio connected c soundUrl now = .ok none)
    ∧ (connected = false → getAudio connected c soundUrl now = .ok none)
    ∧ (∃ c2, setAudio connected c soundUrl buf ttl now = .ok c2)
    ∧ (c.setFails = true → getAudio connected c soundUrl now = .ok none →
        (AudioService.playSound connected c soundUrl (.ok dl) true now).1 =
          ⟨true, some .network, some dl, 1⟩) := by
  refine ⟨?_, ?_, ?_, ?_, ?_⟩
  · cases connected with
    | false => exact ⟨none, rfl⟩
    | true =>
      cases hg : clientGet c (getCacheKey soundUrl) now with
      | error e => exact ⟨none, by simp [getAudio, hg]⟩
      | ok v =>
        cases v with
        | none => exact ⟨none, by simp [getAudio, hg]⟩
        | some cached =>
          by_cases hc : cached = []
          · exact ⟨none, by simp [getAudio, hg, hc]⟩
          · exact ⟨some (b64dec cached), by simp [getAudio, hg, hc]⟩
  · intro h
    cases connected with
    | false => rfl
    | true => simp [getAudio, clientGet, h]
  · intro h
    subst h
    rfl
  · cases connected with
    | false => exact ⟨c, rfl⟩
    | true =>
      by_cases hs : c.setFails
      · exact ⟨c, by simp [setAudio, clientSet, hs]⟩
      · exact ⟨Client.mk c.getFails c.setFails c.delFails
            (mset c.store (getCacheKey soundUrl) (Entry.mk (b64chunks buf) (now + ttl))),
          by simp [setAudio, clientSet, hs]⟩
  · intro hs hmiss
    unfold AudioService.playSound
    rw [hmiss]
    cases connected with
    | false => simp [setAudio]
    | true => simp [setAudio, clientSet, hs]

theorem cache_failures_never_propagate_witness :
    (∃ v, getAudio true ⟨true, true, false, []⟩ "u" 0 = .ok v)
    ∧ getAudio true ⟨true, true, false, []⟩ "u" 0 = .ok none
    ∧ (∃ c2, setAudio true ⟨true, true, false, []⟩ "u" [1, 2] 604800 0 = .ok c2)
    ∧ (AudioService.playSound true ⟨true, true, false, []⟩ "u" (.ok [1, 2]) true 0).1 =
        ⟨true, some .network, some [1, 2], 1⟩ := by
  have h := cache_failures_never_propagate true ⟨true, true, false, []⟩ "u"
    [1, 2] [1, 2] 604800 0
  exact ⟨h.1, h.2.1 rfl, h.2.2.2.1, h.2.2.2.2 rfl (h.2.1 rfl)⟩

/-- C5 (amended): for every key `k` and every NON-EMPTY byte buffer `b`,
`put(k, b)` immediately followed by `get(k)` returns bytes equal to `b`,
and after `invalidate(k)`, `get(k)` returns absent. (The original claim,
quantified over every buffer, fails for the empty buffer: `getAudio`
treats the stored empty string as falsy and reports a miss.) -/
theorem cache_put_get_roundtrip (c : Client) (soundUrl : String)
    (b : List Nat) (now : Nat)
    (hget : c.getFails = false) (hsf : c.setFails = false)
    (hdf : c.delFails = false)
    (hb : b ≠ []) (hbytes : ∀ x ∈ b, x < 256) :
    ∀ c2, setAudio true c soundUrl b 604800 now = .ok c2 →
      getAudio true c2 soundUrl now = .ok (some b)
      ∧ ∀ c3, clearAudio true c2 soundUrl = .ok c3 →
          getAudio true c3 soundUrl now = .ok none := by
  intro c2 hset
  have hc2 : c2 = Client.mk c.getFails false c.delFails
      (mset c.store (getCacheKey soundUrl)
        (Entry.mk (b64chunks b) (now + 604800))) := by
    simp [setAudio, clientSet, hsf] at hset
    exact hset.symm
  subst hc2
  refine ⟨?_, ?_⟩
  · have hnn := b64chunks_ne_nil b hb
    simp [getAudio, clientGet, hget, mlookup_mset_self, hnn,
      b64_roundtrip b hbytes]
  · intro c3 hclear
    have hc3 : c3 = Client.mk c.getFails false false
        (mdel (mset c.store (getCacheKey soundUrl)
          (Entry.mk (b64chunks b) (now + 604800))) (getCacheKey soundUrl)) := by
      simp [clearAudio, clientDel, hdf] at hclear
      exact hclear.symm
    subst hc3
    simp [getAudio, clientGet, hget, mlookup_mdel_self]

theorem cache_put_get_roundtrip_witness :
    getAudio true
        (Client.mk false false false
          (mset ([] : List (String × Entry)) (getCacheKey "u")
            (Entry.mk (b64chunks [7, 200]) (0 + 604800)))) "u" 0 =
      .ok (some [7, 200]) := by
  have h := cache_put_get_roundtrip (Client.mk false false false []) "u" [7, 200] 0
    rfl rfl rfl (by decide) (by decide)
    (Client.mk false false false
      (mset ([] : List (String × Entry)) (getCacheKey "u")
        (Entry.mk (b64chunks [7, 200]) (0 + 604800)))) rfl
  exact h.1

/-- C5 counterexample: for the empty buffer the original claim fails:
`put("u", [])` stores the empty base64 string, and the subsequent
`get("u")` reports a miss (`null`) because the empty string is falsy in
the `if (cached)` test, instead of returning the empty buffer. -/
theorem cache_put_get_empty_counterexample :
    (match setAudio true (Client.mk false false false []) "u" [] 604800 0 with
      | .ok c2 => getAudio true c2 "u" 0
      | .error _ => .error ()) = .ok none
    ∧ (Except.ok none : Except Unit (Option (List Nat))) ≠ .ok (some []) := by
  refine ⟨rfl, ?_⟩
  intro h
  injection h with h2
  injection h2

end CacheService
namespace AudioService

open AMap B64 CacheService

/-- C3: with a cold cache (no entry for the url), a connected and healthy
cache backend, a downloader returning a non-empty buffer, and playback
starting successfully, two sequential `playSound` calls for the same url
resolve with provenance "network" then "cache", and the downloader is
invoked exactly once across the two calls. -/
theorem fetch_provenance (c : Client) (soundUrl : String) (dl : List Nat)
    (t1 t2 : Nat)
    (hget : c.getFails = false) (hsf : c.setFails = false)
    (hcold : mlookup c.store (getCacheKey soundUrl) = none)
    (hdl : dl ≠ []) (ht2 : t2 < t1 + 604800) :
    (playSound true c soundUrl (.ok dl) true t1).1.provenance = some .network
    ∧ (playSound true (playSound true c soundUrl (.ok dl) true t1).2 soundUrl
        (.ok dl) true t2).1.provenance = some .cache
    ∧ (playSound true c soundUrl (.ok dl) true t1).1.downloaderCalls
      + (playSound true (playSound true c soundUrl (.ok dl) true t1).2 soundUrl
          (.ok dl) true t2).1.downloaderCalls = 1 := by
  have h1 : playSound true c soundUrl (.ok dl) true t1 =
      (⟨true, some .network, some dl, 1⟩,
        Client.mk c.getFails false c.delFails
          (mset c.store (getCacheKey soundUrl)
            (Entry.mk (b64chunks dl) (t1 + 604800)))) := by
    simp [playSound, getAudio, clientGet, hget, hcold, setAudio, clientSet, hsf]
  have hnn := b64chunks_ne_nil dl hdl
  have h2 : playSound true
      (Client.mk c.getFails false c.delFails
        (mset c.store (getCacheKey soundUrl)
          (Entry.mk (b64chunks dl) (t1 + 604800)))) soundUrl
      (.ok dl) true t2 =
      (⟨true, some .cache, some (b64dec (b64chunks dl)), 0⟩,
        Client.mk c.getFails false c.delFails
          (mset c.store (getCacheKey soundUrl)
            (Entry.mk (b64chunks dl) (t1 + 604800)))) := by
    simp [playSound, getAudio, clientGet, hget, mlookup_mset_self, ht2, hnn]
  rw [h1]
  simp [h2]

theorem fetch_provenance_witness :
    (playSound true (Client.mk false false false []) "u" (.ok [3]) true 0).1.provenance =
      some .network
    ∧ (playSound true (playSound true (Client.mk false false false []) "u"
        (.ok [3]) true 0).2 "u" (.ok [3]) true 5).1.provenance = some .cache
    ∧ (playSound true (Client.mk false false false []) "u" (.ok [3]) true 0).1.downloaderCalls
      + (playSound true (playSound true (Client.mk false false false []) "u"
          (.ok [3]) true 0).2 "u" (.ok [3]) true 5).1.downloaderCalls = 1 :=
  fetch_provenance (Client.mk false false false []) "u" [3] 0 5
    rfl rfl rfl (by decide) (by decide)

end AudioService
namespace SoundRepository

/-- `getSounds` returns at most `maxSoundsPerGuild` records, never more
than the guild holds. -/
theorem getSounds_length_le (db : SoundDB) (g : Nat) :
    (getSounds db g).length ≤ getCount db g := by
  unfold getSounds getCount
  have h1 := List.length_take_le maxSoundsPerGuild
    ((guildRows db g).mergeSort (fun r1 r2 => decide (r2.createdAt ≤ r1.createdAt)))
  have h2 := @List.length_mergeSort _
    (fun r1 r2 => decide (r2.createdAt ≤ r1.createdAt)) (guildRows db g)
  have h3 : (((guildRows db g).mergeSort
      (fun r1 r2 => decide (r2.createdAt ≤ r1.createdAt))).take
        maxSoundsPerGuild).length ≤ ((guildRows db g).mergeSort
      (fun r1 r2 => decide (r2.createdAt ≤ r1.createdAt))).length :=
    List.length_take_le' _ _
  omega

/-- C10: `getSoundByIndex` is total: any result is one of the guild's
listed records, and a negative index, or one at or beyond the guild's
stored-sound count, yields `null` rather than an out-of-bounds error. -/
theorem getSoundByIndex_total (db : SoundDB) (g : Nat) (index : Int) :
    (∀ r, getSoundByIndex db g index = some r → r ∈ getSounds db g)
    ∧ (index < 0 → getSoundByIndex db g index = none)
    ∧ ((getCount db g : Int) ≤ index → getSoundByIndex db g index = none) := by
  refine ⟨?_, ?_, ?_⟩
  · intro r hr
    unfold getSoundByIndex at hr
    by_cases hneg : index < 0
    · rw [if_pos hneg] at hr
      exact absurd hr (by simp)
    · rw [if_neg hneg] at hr
      exact List.get?_mem hr
  · intro hneg
    unfold getSoundByIndex
    rw [if_pos hneg]
  · intro hge
    unfold getSoundByIndex
    by_cases hneg : index < 0
    · rw [if_pos hneg]
    · rw [if_neg hneg]
      refine List.get?_eq_none.mpr ?_
      have hlen := getSounds_length_le db g
      omega

theorem getSoundByIndex_total_witness :
    getSoundByIndex (SoundDB.mk [] 0) 1 (-1) = none
    ∧ getSoundByIndex (SoundDB.mk [] 0) 1 0 = none := by
  have h := getSoundByIndex_total (SoundDB.mk [] 0) 1 (-1)
  have h2 := getSoundByIndex_total (SoundDB.mk [] 0) 1 0
  exact ⟨h.2.1 (by decide), h2.2.2 (by decide)⟩

end SoundRepository
namespace SoundRepository

theorem foldl_oldest_mem (rs : List SoundRecord) :
    ∀ r : SoundRecord,
      rs.foldl (fun best x => if x.createdAt < best.createdAt then x else best) r = r
      ∨ rs.foldl (fun best x => if x.createdAt < best.createdAt then x else best) r ∈ rs := by
  induction rs with
  | nil => intro r; exact Or.inl rfl
  | cons x rest ih =>
    intro r
    simp only [List.foldl_cons]
    by_cases hx : x.createdAt < r.createdAt
    · rw [if_pos hx]
      rcases ih x with h | h
      · exact Or.inr (by rw [h]; exact List.mem_cons_self x rest)
      · exact Or.inr (List.mem_cons_of_mem x h)
    · rw [if_neg hx]
      rcases ih r with h | h
      · exact Or.inl h
      · exact Or.inr (List.mem_cons_of_mem x h)

theorem foldl_oldest_min (rs : List SoundRecord) :
    ∀ r : SoundRecord,
      (rs.foldl (fun best x => if x.createdAt < best.createdAt then x else best) r).createdAt
          ≤ r.createdAt
      ∧ ∀ x ∈ rs,
          (rs.foldl (fun best x => if x.createdAt < best.createdAt then x else best)
            r).createdAt ≤ x.createdAt := by
  induction rs with
  | nil => intro r; exact ⟨le_refl _, by simp⟩
  | cons x rest ih =>
    intro r
    simp only [List.foldl_cons]
    by_cases hx : x.createdAt < r.createdAt
    · rw [if_pos hx]
      rcases ih x with ⟨h1, h2⟩
      refine ⟨le_trans h1 (le_of_lt hx), ?_⟩
      intro y hy
      rcases List.mem_cons.mp hy with rfl | hyr
      · exact h1
      · exact h2 y hyr
    · rw [if_neg hx]
      rcases ih r with ⟨h1, h2⟩
      refine ⟨h1, ?_⟩
      intro y hy
      rcases List.mem_cons.mp hy with rfl | hyr
      · omega
      · exact h2 y hyr

theorem oldestRow_spec (db : SoundDB) (g : Nat) (old : SoundRecord)
    (h : oldestRow db g = some old) :
    old ∈ guildRows db g ∧ ∀ r ∈ guildRows db g, old.createdAt ≤ r.createdAt := by
  unfold oldestRow at h
  cases hgr : guildRows db g with
  | nil => rw [hgr] at h; cases h
  | cons r rs =>
    rw [hgr] at h
    have hold := Option.some.inj h
    constructor
    · rcases foldl_oldest_mem rs r with he | he
      · rw [← hold, he]; exact List.mem_cons_self r rs
      · rw [← hold]; exact List.mem_cons_of_mem r he
    · intro y hy
      rcases List.mem_cons.mp hy with rfl | hyr
      · rw [← hold]; exact (foldl_oldest_min rs y).1
      · rw [← hold]; exact (foldl_oldest_min rs r).2 y hyr

theorem filter_ne_id_length (l : List SoundRecord) (x : SoundRecord)
    (hx : x ∈ l) (hnd : l.Pairwise (fun a b => a.id ≠ b.id)) :
    (l.filter (fun r => decide (r.id ≠ x.id))).length + 1 = l.length := by
  induction l with
  | nil => cases hx
  | cons y rest ih =>
    rcases List.pairwise_cons.mp hnd with ⟨hy, hrest⟩
    rcases List.mem_cons.mp hx with rfl | hxr
    · have hkeep : rest.filter (fun r => decide (r.id ≠ x.id)) = rest :=
        List.filter_eq_self.mpr (fun a ha => by
          simp only [decide_eq_true_eq]
          exact fun he => (hy a ha) he.symm)
      simp [List.filter_cons, hkeep]
      exact fun a ha he => (hy a ha) he.symm
    · have hyx : y.id ≠ x.id := fun he => (hy x hxr) he
      have hlen := ih hxr hrest
      simp only [ne_eq, decide_not] at hlen
      simp [List.filter_cons, hyx]
      omega

theorem guildRows_removeOldest (db : SoundDB) (g : Nat) (old : SoundRecord)
    (h : oldestRow db g = some old) :
    guildRows (removeOldest db g) g =
      (guildRows db g).filter (fun r => decide (r.id ≠ old.id)) := by
  unfold removeOldest
  rw [h]
  unfold guildRows
  rw [List.filter_filter, List.filter_filter]
  exact List.filter_congr (fun a _ => Bool.and_comm _ _)

theorem removeOldest_nextRowId (db : SoundDB) (g : Nat) :
    (removeOldest db g).nextRowId = db.nextRowId := by
  unfold removeOldest
  cases oldestRow db g with
  | none => rfl
  | some old => rfl

theorem getCount_removeOldest (db : SoundDB) (g : Nat) (old : SoundRecord)
    (hwf : RowsWF db) (h : oldestRow db g = some old) :
    getCount (removeOldest db g) g + 1 = getCount db g := by
  show (guildRows (removeOldest db g) g).length + 1 = (guildRows db g).length
  rw [guildRows_removeOldest db g old h]
  exact filter_ne_id_length (guildRows db g) old (oldestRow_spec db g old h).1
    (hwf.filter _)

theorem guildRows_append (rows : List SoundRecord) (n : Nat) (row : SoundRecord)
    (hg : row.guildId = g) :
    guildRows (SoundDB.mk (rows ++ [row]) n) g =
      guildRows (SoundDB.mk rows n) g ++ [row] := by
  unfold guildRows
  rw [List.filter_append]
  simp [hg]

theorem getCount_append (rows : List SoundRecord) (n : Nat) (row : SoundRecord)
    (g : Nat) (hg : row.guildId = g) :
    getCount (SoundDB.mk (rows ++ [row]) n) g =
      (rows.filter (fun r => decide (r.guildId = g))).length + 1 := by
  show ((rows ++ [row]).filter _).length = _
  rw [List.filter_append]
  simp [hg]

theorem oldestRow_isSome (db : SoundDB) (g : Nat) (h : getCount db g ≠ 0) :
    ∃ old, oldestRow db g = some old := by
  unfold oldestRow
  cases hgr : guildRows db g with
  | nil =>
    exfalso
    apply h
    show (guildRows db g).length = 0
    rw [hgr]
    rfl
  | cons r rs => exact ⟨_, rfl⟩

/-- C9: `addSound` returns `null` and inserts nothing on a duplicate
`(guildId, soundUrl)`; otherwise it inserts one record, evicting the single
oldest guild record first when the guild is at the `maxSoundsPerGuild`
limit, so a per-guild count within the limit stays within the limit. -/
theorem addSound_spec (db : SoundDB) (g : Nat) (u t o2 : String) (now : Nat)
    (hwf : RowsWF db) (hcount : getCount db g ≤ maxSoundsPerGuild) :
    (isDuplicate db g u = true → addSound db g u t o2 now = (db, none))
    ∧ (isDuplicate db g u = false → (addSound db g u t o2 now).2.isSome = true)
    ∧ (isDuplicate db g u = false →
        getCount (addSound db g u t o2 now).1 g ≤ maxSoundsPerGuild)
    ∧ (isDuplicate db g u = false → getCount db g = maxSoundsPerGuild →
        ∃ old, oldestRow db g = some old
          ∧ old ∈ guildRows db g
          ∧ (∀ r ∈ guildRows db g, old.createdAt ≤ r.createdAt)
          ∧ guildRows (addSound db g u t o2 now).1 g =
              (guildRows db g).filter (fun r => decide (r.id ≠ old.id))
                ++ [SoundRecord.mk db.nextRowId g u t o2 now]
          ∧ getCount (addSound db g u t o2 now).1 g = maxSoundsPerGuild) := by
  refine ⟨?_, ?_, ?_, ?_⟩
  · intro hdup
    simp [addSound, hdup]
  · intro hdup
    simp [addSound, hdup]
  · intro hdup
    by_cases hlim : maxSoundsPerGuild ≤ getCount db g
    · have heq : getCount db g = maxSoundsPerGuild := le_antisymm hcount hlim
      obtain ⟨old, hold⟩ := oldestRow_isSome db g (by
        rw [heq]; unfold maxSoundsPerGuild; omega)
      have hrm := getCount_removeOldest db g old hwf hold
      have hadd : (addSound db g u t o2 now).1 =
          SoundDB.mk ((removeOldest db g).rows ++
            [SoundRecord.mk (removeOldest db g).nextRowId g u t o2 now])
            ((removeOldest db g).nextRowId + 1) := by
        simp [addSound, hdup, hlim]
      rw [hadd, getCount_append _ _ _ g rfl]
      have ha : ((removeOldest db g).rows.filter
          (fun r => decide (r.guildId = g))).length =
          getCount (removeOldest db g) g := rfl
      rw [ha]
      omega
    · push_neg at hlim
      have hadd : (addSound db g u t o2 now).1 =
          SoundDB.mk (db.rows ++ [SoundRecord.mk db.nextRowId g u t o2 now])
            (db.nextRowId + 1) := by
        simp [addSound, hdup, Nat.not_le.mpr hlim]
      rw [hadd, getCount_append _ _ _ g rfl]
      have ha : (db.rows.filter (fun r => decide (r.guildId = g))).length =
          getCount db g := rfl
      rw [ha]
      omega
  · intro hdup heq
    have hlim : maxSoundsPerGuild ≤ getCount db g := le_of_eq heq.symm
    obtain ⟨old, hold⟩ := oldestRow_isSome db g (by
      rw [heq]; unfold maxSoundsPerGuild; omega)
    have hspec := oldestRow_spec db g old hold
    have hrm := getCount_removeOldest db g old hwf hold
    have hadd : (addSound db g u t o2 now).1 =
        SoundDB.mk ((removeOldest db g).rows ++
          [SoundRecord.mk (removeOldest db g).nextRowId g u t o2 now])
          ((removeOldest db g).nextRowId + 1) := by
      simp [addSound, hdup, hlim]
    have hnext := removeOldest_nextRowId db g
    refine ⟨old, hold, hspec.1, hspec.2, ?_, ?_⟩
    · rw [hadd, hnext]
      have hga := guildRows_append (removeOldest db g).rows (db.nextRowId + 1)
        (SoundRecord.mk db.nextRowId g u t o2 now) rfl
      rw [hga]
      have : guildRows (SoundDB.mk (removeOldest db g).rows (db.nextRowId + 1)) g =
          guildRows (removeOldest db g) g := rfl
      rw [this, guildRows_removeOldest db g old hold]
    · rw [hadd, getCount_append _ _ _ g rfl]
      have ha : ((removeOldest db g).rows.filter
          (fun r => decide (r.guildId = g))).length =
          getCount (removeOldest db g) g := rfl
      rw [ha]
      omega

end SoundRepository
namespace SoundRepository

set_option maxRecDepth 10000 in
theorem addSound_spec_witness :
    addSound (SoundDB.mk ((List.range 100).map
        (fun i => SoundRecord.mk i 1 (toString i) "t" "o" i)) 100) 1 "5" "t" "o" 200 =
      (SoundDB.mk ((List.range 100).map
        (fun i => SoundRecord.mk i 1 (toString i) "t" "o" i)) 100, none)
    ∧ (addSound (SoundDB.mk ((List.range 100).map
        (fun i => SoundRecord.mk i 1 (toString i) "t" "o" i)) 100) 1 "u" "t" "o"
        200).2.isSome = true
    ∧ getCount (addSound (SoundDB.mk ((List.range 100).map
        (fun i => SoundRecord.mk i 1 (toString i) "t" "o" i)) 100) 1 "u" "t" "o"
        200).1 1 ≤ maxSoundsPerGuild := by
  have h1 := addSound_spec (SoundDB.mk ((List.range 100).map
    (fun i => SoundRecord.mk i 1 (toString i) "t" "o" i)) 100) 1 "5" "t" "o" 200
    (by unfold RowsWF; decide) (by decide)
  have h2 := addSound_spec (SoundDB.mk ((List.range 100).map
    (fun i => SoundRecord.mk i 1 (toString i) "t" "o" i)) 100) 1 "u" "t" "o" 200
    (by unfold RowsWF; decide) (by decide)
  exact ⟨h1.1 (by decide), h2.2.1 (by decide), h2.2.2.1 (by decide)⟩

end SoundRepository
namespace VoiceService

open AMap

/-- C6: when the transport does not reach Ready within the 30-second bound
during a fresh join, `playAudio` destroys the connection, deletes this
call's temporary file (the second `unlink` from the catch-all is a no-op on
the already-deleted file), registers no session, and only then surfaces the
join-timeout error; the bound is 30000 ms. -/
theorem playAudio_joinTimeout (s : VState) (g : GuildId) (tmp : FileId)
    (hfresh : livable s g = none) (htmp : tmp ∉ s.files)
    (hev : s.events = []) :
    (playAudio s g tmp .joinTimeout).2 = some .joinTimeout
    ∧ (playAudio s g tmp .joinTimeout).1.events =
        [.created tmp, .joined g s.nextId, .destroyedConn s.nextId,
          .unlinked tmp, .unlinkNoop tmp, .failed g .joinTimeout]
    ∧ (playAudio s g tmp .joinTimeout).1.files = s.files
    ∧ (playAudio s g tmp .joinTimeout).1.connections = s.connections
    ∧ joinTimeoutMs = 30000 := by
  cases s with
  | mk cs ts fs n0 ni ev =>
    simp only [VState.events] at hev
    subst hev
    simp only [VState.files] at htmp
    have hl : livable (VState.mk cs ts (tmp :: fs) n0 ni
        ([] ++ [Ev.created tmp])) g = none := hfresh
    simp only [playAudio, hl]
    simp [unlinkF, htmp, joinTimeoutMs]

theorem playAudio_joinTimeout_witness :
    (playAudio (VState.mk [] [] [] 0 0 []) 1 (1, 5) .joinTimeout).2 =
      some .joinTimeout
    ∧ (playAudio (VState.mk [] [] [] 0 0 []) 1 (1, 5) .joinTimeout).1.events =
        [.created (1, 5), .joined 1 0, .destroyedConn 0,
          .unlinked (1, 5), .unlinkNoop (1, 5), .failed 1 .joinTimeout] := by
  have h := playAudio_joinTimeout (VState.mk [] [] [] 0 0 []) 1 (1, 5)
    rfl (by decide) rfl
  exact ⟨h.1, h.2.1⟩

/-- C7: a second `playAudio` call for the same guild, made while the
session created by the first call is live (status not Destroyed), reuses
the same connection and player handles: exactly one join happens across
the two calls, and the session map is unchanged by the second call. -/
theorem playAudio_reuse (s : VState) (g : GuildId) (f1 f2 : FileId)
    (hfresh : livable s g = none) (hev : s.events = []) :
    mlookup (playAudio s g f1 .success).1.connections g =
      some (ConnData.mk s.nextId (s.nextId + 1) .ready f1)
    ∧ (playAudio (playAudio s g f1 .success).1 g f2 .success).1.connections =
        (playAudio s g f1 .success).1.connections
    ∧ mlookup (playAudio (playAudio s g f1 .success).1 g f2
        .success).1.connections g =
        some (ConnData.mk s.nextId (s.nextId + 1) .ready f1)
    ∧ ((playAudio (playAudio s g f1 .success).1 g f2 .success).1.events.countP
        (fun e => match e with | .joined _ _ => true | _ => false)) = 1 := by
  cases s with
  | mk cs ts fs n0 ni ev =>
    simp only [VState.events] at hev
    subst hev
    have hl1 : livable (VState.mk cs ts (f1 :: fs) n0 ni
        ([] ++ [Ev.created f1])) g = none := hfresh
    have h1 : (playAudio (VState.mk cs ts fs n0 ni []) g f1 .success).1 =
        VState.mk (mset cs g (ConnData.mk ni (ni + 1) .ready f1)) ts (f1 :: fs)
          n0 (ni + 2)
          ([] ++ [Ev.created f1] ++ [Ev.joined g ni] ++ [Ev.played g f1]) := by
      simp only [playAudio, hl1]
      simp
    rw [h1]
    have hl2 : livable (VState.mk (mset cs g (ConnData.mk ni (ni + 1) .ready f1))
        ts (f2 :: (f1 :: fs)) n0 (ni + 2)
        (([] ++ [Ev.created f1] ++ [Ev.joined g ni] ++ [Ev.played g f1])
          ++ [Ev.created f2])) g =
        some (ConnData.mk ni (ni + 1) .ready f1) := by
      simp [livable, mlookup_mset_self]
    have h2 : (playAudio (VState.mk (mset cs g (ConnData.mk ni (ni + 1) .ready f1))
        ts (f1 :: fs) n0 (ni + 2)
        ([] ++ [Ev.created f1] ++ [Ev.joined g ni] ++ [Ev.played g f1])) g f2
          .success).1 =
        VState.mk (mset cs g (ConnData.mk ni (ni + 1) .ready f1)) ts
          (f2 :: (f1 :: fs)) n0 (ni + 2)
          (([] ++ [Ev.created f1] ++ [Ev.joined g ni] ++ [Ev.played g f1])
            ++ [Ev.created f2] ++ [Ev.reused g ni, Ev.played g f2]) := by
      simp only [playAudio, hl2]
      simp
    rw [h2]
    refine ⟨by simp [mlookup_mset_self], rfl, by simp [mlookup_mset_self], ?_⟩
    simp [List.countP_append, List.countP_cons]

theorem playAudio_reuse_witness :
    mlookup (playAudio (VState.mk [] [] [] 0 0 []) 1 (1, 5) .success).1.connections 1 =
      some (ConnData.mk 0 1 .ready (1, 5))
    ∧ mlookup (playAudio (playAudio (VState.mk [] [] [] 0 0 []) 1 (1, 5)
        .success).1 1 (1, 6) .success).1.connections 1 =
        some (ConnData.mk 0 1 .ready (1, 5)) := by
  have h := playAudio_reuse (VState.mk [] [] [] 0 0 []) 1 (1, 5) (1, 6) rfl rfl
  exact ⟨h.1, h.2.2.1⟩

end VoiceService
namespace VoiceService

open AMap

@[simp]
theorem unlinkF_connections (s : VState) (f : FileId) :
    (unlinkF s f).connections = s.connections := by
  unfold unlinkF
  split <;> rfl

@[simp]
theorem unlinkF_disconnectTimers (s : VState) (f : FileId) :
    (unlinkF s f).disconnectTimers = s.disconnectTimers := by
  unfold unlinkF
  split <;> rfl

@[simp]
theorem scheduleDisconnect_connections (s : VState) (g : GuildId) :
    (scheduleDisconnect s g).connections = s.connections := rfl

@[simp]
theorem scheduleDisconnect_files (s : VState) (g : GuildId) :
    (scheduleDisconnect s g).files = s.files := rfl

theorem unlinkF_mem_files (s : VState) (f f2 : FileId) (h : f2 ≠ f) :
    f2 ∈ (unlinkF s f).files ↔ f2 ∈ s.files := by
  unfold unlinkF
  split
  · simpa using List.mem_erase_of_ne h
  · exact Iff.rfl

theorem livable_some (s : VState) (g : GuildId) (cd : ConnData)
    (h : livable s g = some cd) :
    mlookup s.connections g = some cd ∧ cd.status ≠ .destroyed := by
  unfold livable at h
  split at h
  · split at h
    · cases h
      refine ⟨by assumption, by assumption⟩
    · cases h
  · cases h

theorem playAudio_disconnectTimers (s : VState) (g : GuildId) (tmp : FileId)
    (o : Outcome) :
    (playAudio s g tmp o).1.disconnectTimers = s.disconnectTimers := by
  simp only [playAudio]
  by_cases ho : o = .exception
  · simp [ho, unlinkF_disconnectTimers]
  · rw [if_neg ho]
    cases hl : livable
        { s with files := tmp :: s.files, events := s.events ++ [Ev.created tmp] }
        g with
    | some cd => simp [hl]
    | none =>
      by_cases hj : o = .joinTimeout
      · simp [hl, hj, unlinkF_disconnectTimers]
      · simp [hl, hj]

/-- C2 counterexample: arm the idle timer by finishing a playback at t=0
(deadline 900000); a new `playAudio` for the same guild at t=100 leaves the
pending timer armed (the claim says it cancels it); when the timer fires at
t=900000 it destroys the session even though the second playback is still
in progress (its temp file is still present). -/
theorem idle_timer_not_cancelled_counterexample :
    mlookup (runActs (VState.mk [] [] [] 0 0 [])
        [.play 1 (1, 10) .success, .finish 1 (1, 10), .tick 100,
          .play 1 (1, 20) .success]).disconnectTimers 1 = some 900000
    ∧ mlookup (runActs (VState.mk [] [] [] 0 0 [])
        [.play 1 (1, 10) .success, .finish 1 (1, 10), .tick 100,
          .play 1 (1, 20) .success, .tick 899900, .fire 1]).connections 1 = none
    ∧ ((1, 20) : FileId) ∈ (runActs (VState.mk [] [] [] 0 0 [])
        [.play 1 (1, 10) .success, .finish 1 (1, 10), .tick 100,
          .play 1 (1, 20) .success, .tick 899900, .fire 1]).files := by
  refine ⟨by decide, by decide, by decide⟩

/-- C2 (amended): after a playback finishes, `scheduleDisconnect` arms the
guild's timer for exactly the 15-minute window, and the timer cannot tear
the session down before its deadline; but a new `playAudio` call does NOT
cancel the pending timer (it leaves the timer map untouched), and when the
deadline arrives the timer destroys whatever session exists, regardless of
new playback activity. Cancellation happens only through
`scheduleDisconnect` re-arming (on playback completion or player error) or
explicit `disconnect`. -/
theorem idle_timer_amended (s : VState) (g g2 : GuildId) (tmp : FileId)
    (o : Outcome) (d : Nat)
    (harm : mlookup s.disconnectTimers g = some d) :
    (playAudio s g2 tmp o).1.disconnectTimers = s.disconnectTimers
    ∧ (s.now ≠ d → timerFire s g = s)
    ∧ (s.now = d → ∀ cd, mlookup s.connections g = some cd →
        mlookup (timerFire s g).connections g = none)
    ∧ mlookup (scheduleDisconnect s g).disconnectTimers g =
        some (s.now + autoDisconnectDelay)
    ∧ (mlookup ((disconnect s g).1).disconnectTimers g = none
        ∨ mlookup s.connections g = none)
    ∧ autoDisconnectDelay = 15 * 60 * 1000 := by
  refine ⟨playAudio_disconnectTimers s g2 tmp o, ?_, ?_, ?_, ?_, rfl⟩
  · intro hne
    unfold timerFire
    rw [harm]
    dsimp only
    rw [if_neg hne]
  · intro hd cd hcd
    unfold timerFire
    rw [harm]
    dsimp only
    rw [if_pos hd, hcd]
    simp [mlookup_mdel_self]
  · simp [scheduleDisconnect, mlookup_mset_self]
  · cases hc : mlookup s.connections g with
    | none => exact Or.inr rfl
    | some cd =>
      refine Or.inl ?_
      unfold disconnect
      rw [hc]
      simp [mlookup_mdel_self]

theorem idle_timer_amended_witness :
    (playAudio (VState.mk [(1, ConnData.mk 0 1 .ready (1, 3))] [(1, 7)] [] 7 2 [])
        2 (2, 4) .success).1.disconnectTimers = [(1, 7)]
    ∧ mlookup (timerFire (VState.mk [(1, ConnData.mk 0 1 .ready (1, 3))]
        [(1, 7)] [] 7 2 []) 1).connections 1 = none := by
  have h := idle_timer_amended
    (VState.mk [(1, ConnData.mk 0 1 .ready (1, 3))] [(1, 7)] [] 7 2 [])
    1 2 (2, 4) .success 7 rfl
  exact ⟨h.1, h.2.2.1 rfl (ConnData.mk 0 1 .ready (1, 3)) rfl⟩

/-- C1: for every simulated outcome of one `playAudio` call (success,
join-timeout, mid-stream player error, unexpected exception), the
temporary file created for that call is removed from the temp directory
exactly once (every further `unlink` of it is a swallowed no-op), the temp
directory ends exactly as it began, and the call's cleanup handlers never
remove any other call's file. Side conditions: the temp name is fresh
(`Date.now()` uniqueness), a join timeout presupposes a fresh join, and
for a player error on a reused connection the creating call's captured
temp file is no longer present (it was already cleaned up by that call's
own handlers). -/
theorem tempfile_cleanup (s : VState) (g : GuildId) (tmp : FileId)
    (o : Outcome)
    (htmp : tmp ∉ s.files) (hev : s.events = [])
    (hjt : o = .joinTimeout → livable s g = none)
    (hpe : o = .playerError → ∀ cd, livable s g = some cd →
      cd.errTmp ∉ s.files) :
    (runActs s (callScript g tmp o)).files = s.files
    ∧ (runActs s (callScript g tmp o)).events.count (.unlinked tmp) = 1
    ∧ ∀ f : FileId, f ≠ tmp →
        (runActs s (callScript g tmp o)).events.count (.unlinked f) = 0 := by
  cases s with
  | mk cs ts fs n0 ni ev =>
    simp only [VState.events] at hev
    subst hev
    simp only [VState.files] at htmp
    cases o with
    | success =>
      cases hl : livable (VState.mk cs ts fs n0 ni []) g with
      | none =>
        have hl1 : livable (VState.mk cs ts (tmp :: fs) n0 ni
            ([] ++ [Ev.created tmp])) g = none := hl
        have h1 : runActs (VState.mk cs ts fs n0 ni [])
            (callScript g tmp .success) =
            scheduleDisconnect (unlinkF (VState.mk
              (mset cs g (ConnData.mk ni (ni + 1) .ready tmp)) ts (tmp :: fs)
              n0 (ni + 2)
              [Ev.created tmp, Ev.joined g ni, Ev.played g tmp]) tmp) g := by
          simp only [callScript, runActs, List.foldl, stepAct, idleFire]
          simp only [playAudio, hl1]
          simp
        rw [h1]
        have h2 : unlinkF (VState.mk
            (mset cs g (ConnData.mk ni (ni + 1) .ready tmp)) ts (tmp :: fs)
            n0 (ni + 2) [Ev.created tmp, Ev.joined g ni, Ev.played g tmp]) tmp =
            VState.mk (mset cs g (ConnData.mk ni (ni + 1) .ready tmp)) ts fs
              n0 (ni + 2)
              [Ev.created tmp, Ev.joined g ni, Ev.played g tmp,
                Ev.unlinked tmp] := by
          simp [unlinkF]
        rw [h2]
        refine ⟨rfl, by simp [scheduleDisconnect, List.count_cons], ?_⟩
        intro f hne
        have hns : tmp ≠ f := Ne.symm hne
        simp [scheduleDisconnect, List.count_cons, hns]
      | some cd =>
        have hl1 : livable (VState.mk cs ts (tmp :: fs) n0 ni
            ([] ++ [Ev.created tmp])) g = some cd := hl
        have h1 : runActs (VState.mk cs ts fs n0 ni [])
            (callScript g tmp .success) =
            scheduleDisconnect (unlinkF (VState.mk cs ts (tmp :: fs) n0 ni
              [Ev.created tmp, Ev.reused g cd.connId, Ev.played g tmp]) tmp)
              g := by
          simp only [callScript, runActs, List.foldl, stepAct, idleFire]
          simp only [playAudio, hl1]
          simp
        rw [h1]
        have h2 : unlinkF (VState.mk cs ts (tmp :: fs) n0 ni
            [Ev.created tmp, Ev.reused g cd.connId, Ev.played g tmp]) tmp =
            VState.mk cs ts fs n0 ni
              [Ev.created tmp, Ev.reused g cd.connId, Ev.played g tmp,
                Ev.unlinked tmp] := by
          simp [unlinkF]
        rw [h2]
        refine ⟨rfl, by simp [scheduleDisconnect, List.count_cons], ?_⟩
        intro f hne
        have hns : tmp ≠ f := Ne.symm hne
        simp [scheduleDisconnect, List.count_cons, hns]
    | joinTimeout =>
      have hl : livable (VState.mk cs ts fs n0 ni []) g = none := hjt rfl
      have hl1 : livable (VState.mk cs ts (tmp :: fs) n0 ni
          ([] ++ [Ev.created tmp])) g = none := hl
      have h1 : runActs (VState.mk cs ts fs n0 ni [])
          (callScript g tmp .joinTimeout) =
          (playAudio (VState.mk cs ts fs n0 ni []) g tmp .joinTimeout).1 := by
        simp only [callScript, runActs, List.foldl, stepAct]
      rw [h1]
      simp only [playAudio, hl1]
      simp only [unlinkF]
      refine ⟨by simp [htmp], by simp [htmp, List.count_cons], ?_⟩
      intro f hne
      have hns : tmp ≠ f := Ne.symm hne
      simp [htmp, List.count_cons, hns]
    | playerError =>
      cases hl : livable (VState.mk cs ts fs n0 ni []) g with
      | none =>
        have hl1 : livable (VState.mk cs ts (tmp :: fs) n0 ni
            ([] ++ [Ev.created tmp])) g = none := hl
        have h1 : runActs (VState.mk cs ts fs n0 ni [])
            (callScript g tmp .playerError) =
            errorFire (VState.mk
              (mset cs g (ConnData.mk ni (ni + 1) .ready tmp)) ts (tmp :: fs)
              n0 (ni + 2)
              [Ev.created tmp, Ev.joined g ni, Ev.played g tmp]) g tmp := by
          simp only [callScript, runActs, List.foldl, stepAct]
          simp only [playAudio, hl1]
          simp
        rw [h1]
        simp only [errorFire, mlookup_mset_self]
        simp only [idleFire, unlinkF, scheduleDisconnect]
        refine ⟨by simp [htmp], by simp [htmp, List.count_cons], ?_⟩
        intro f hne
        have hns : tmp ≠ f := Ne.symm hne
        simp [htmp, List.count_cons, hns]
      | some cd =>
        have herr : cd.errTmp ∉ fs := hpe rfl cd hl
        have hcs := livable_some (VState.mk cs ts fs n0 ni []) g cd hl
        have hl1 : livable (VState.mk cs ts (tmp :: fs) n0 ni
            ([] ++ [Ev.created tmp])) g = some cd := hl
        have h1 : runActs (VState.mk cs ts fs n0 ni [])
            (callScript g tmp .playerError) =
            errorFire (VState.mk cs ts (tmp :: fs) n0 ni
              [Ev.created tmp, Ev.reused g cd.connId, Ev.played g tmp]) g
              tmp := by
          simp only [callScript, runActs, List.foldl, stepAct]
          simp only [playAudio, hl1]
          simp
        rw [h1]
        have hmc : mlookup (VState.mk cs ts (tmp :: fs) n0 ni
            [Ev.created tmp, Ev.reused g cd.connId, Ev.played g tmp]).connections
            g = some cd := hcs.1
        simp only [errorFire, hmc]
        by_cases he : cd.errTmp = tmp
        · rw [he]
          simp only [idleFire, unlinkF, scheduleDisconnect]
          refine ⟨by simp [htmp], by simp [htmp, List.count_cons], ?_⟩
          intro f hne
          have hns : tmp ≠ f := Ne.symm hne
          simp [htmp, List.count_cons, hns]
        · have hnm : cd.errTmp ∉ tmp :: fs := by
            intro hmem
            rcases List.mem_cons.mp hmem with h | h
            · exact he h
            · exact herr h
          simp only [idleFire, unlinkF, scheduleDisconnect]
          refine ⟨by simp [htmp, hnm], by simp [htmp, hnm, List.count_cons], ?_⟩
          intro f hne
          have hns : tmp ≠ f := Ne.symm hne
          simp [htmp, hnm, List.count_cons, hns]
    | exception =>
      have h1 : runActs (VState.mk cs ts fs n0 ni [])
          (callScript g tmp .exception) =
          (playAudio (VState.mk cs ts fs n0 ni []) g tmp .exception).1 := by
        simp only [callScript, runActs, List.foldl, stepAct]
      rw [h1]
      simp only [playAudio]
      simp only [unlinkF]
      refine ⟨by simp, by simp [List.count_cons], ?_⟩
      intro f hne
      have hns : tmp ≠ f := Ne.symm hne
      simp [List.count_cons, hns]

theorem tempfile_cleanup_witness :
    (runActs (VState.mk [] [] [(2, 9)] 0 0 [])
        (callScript 1 (1, 5) .success)).files = [(2, 9)]
    ∧ (runActs (VState.mk [] [] [(2, 9)] 0 0 [])
        (callScript 1 (1, 5) .success)).events.count (.unlinked (1, 5)) = 1
    ∧ (runActs (VState.mk [] [] [(2, 9)] 0 0 [])
        (callScript 1 (1, 5) .success)).events.count (.unlinked (2, 9)) = 0 := by
  have h := tempfile_cleanup (VState.mk [] [] [(2, 9)] 0 0 []) 1 (1, 5) .success
    (by decide) rfl (fun hx => by cases hx) (fun hx => by cases hx)
  exact ⟨h.1, h.2.1, h.2.2 (2, 9) (by decide)⟩

theorem mem_cons_of_ne (f tmp : FileId) (l : List FileId) (h : f ≠ tmp) :
    f ∈ tmp :: l ↔ f ∈ l := by
  simp [List.mem_cons, h]

theorem playAudio_frame (s : VState) (g : GuildId) (tmp : FileId) (o : Outcome)
    (B : GuildId) (hne : B ≠ g) (htg : tmp.1 = g) (hwf : ConnWF s) :
    mlookup (playAudio s g tmp o).1.connections B = mlookup s.connections B
    ∧ (∀ f : FileId, f.1 = B → (f ∈ (playAudio s g tmp o).1.files ↔ f ∈ s.files))
    ∧ ConnWF (playAudio s g tmp o).1 := by
  have hft : ∀ f : FileId, f.1 = B → f ≠ tmp := by
    intro f hf he
    apply hne
    rw [← hf, he, htg]
  simp only [playAudio]
  by_cases ho : o = .exception
  · subst ho
    refine ⟨by simp [unlinkF_connections], ?_, ?_⟩
    · intro f hf
      simp only [if_pos rfl]
      have h1 := unlinkF_mem_files
        { s with files := tmp :: s.files, events := s.events ++ [Ev.created tmp] }
        tmp f (hft f hf)
      simp only [VState.files] at h1
      simpa [h1] using mem_cons_of_ne f tmp s.files (hft f hf)
    · simp only [if_pos rfl]
      intro g2 cd2 hcd2
      simp only [VState.connections, unlinkF_connections] at hcd2
      exact hwf g2 cd2 hcd2
  · rw [if_neg ho]
    cases hl : livable
        { s with files := tmp :: s.files, events := s.events ++ [Ev.created tmp] }
        g with
    | some cd =>
      refine ⟨rfl, ?_, ?_⟩
      · intro f hf
        exact mem_cons_of_ne f tmp s.files (hft f hf)
      · intro g2 cd2 hcd2
        exact hwf g2 cd2 hcd2
    | none =>
      by_cases hj : o = .joinTimeout
      · subst hj
        rw [if_pos rfl]
        dsimp only
        refine ⟨by simp [unlinkF_connections], ?_, ?_⟩
        · intro f hf
          rw [unlinkF_mem_files _ tmp f (hft f hf),
            unlinkF_mem_files _ tmp f (hft f hf)]
          exact mem_cons_of_ne f tmp s.files (hft f hf)
        · intro g2 cd2 hcd2
          simp only [unlinkF_connections] at hcd2
          exact hwf g2 cd2 hcd2
      · rw [if_neg hj]
        refine ⟨?_, ?_, ?_⟩
        · simp only [VState.connections]
          exact mlookup_mset_ne _ _ _ _ hne
        · intro f hf
          exact mem_cons_of_ne f tmp s.files (hft f hf)
        · intro g2 cd2 hcd2
          simp only [VState.connections] at hcd2
          by_cases hg2 : g2 = g
          · subst hg2
            rw [mlookup_mset_self] at hcd2
            cases hcd2
            exact htg
          · rw [mlookup_mset_ne _ _ _ _ hg2] at hcd2
            exact hwf g2 cd2 hcd2

theorem idleFire_frame (s : VState) (g : GuildId) (tmp : FileId)
    (B : GuildId) (hne : B ≠ g) (htg : tmp.1 = g) (hwf : ConnWF s) :
    mlookup (idleFire s g tmp).connections B = mlookup s.connections B
    ∧ mlookup (idleFire s g tmp).disconnectTimers B =
        mlookup s.disconnectTimers B
    ∧ (∀ f : FileId, f.1 = B → (f ∈ (idleFire s g tmp).files ↔ f ∈ s.files))
    ∧ ConnWF (idleFire s g tmp) := by
  have hft : tmp.1 ≠ B := by rw [htg]; exact fun h => hne h.symm
  refine ⟨?_, ?_, ?_, ?_⟩
  · simp [idleFire, scheduleDisconnect, unlinkF_connections]
  · simp only [idleFire, scheduleDisconnect, unlinkF_disconnectTimers]
    exact mlookup_mset_ne _ _ _ _ hne
  · intro f hf
    have hfne : f ≠ tmp := fun he => hft (he ▸ hf)
    simp only [idleFire, scheduleDisconnect_files]
    exact unlinkF_mem_files s tmp f hfne
  · intro g2 cd2 hcd2
    simp only [idleFire, scheduleDisconnect_connections, unlinkF_connections]
      at hcd2
    exact hwf g2 cd2 hcd2

theorem errorFire_frame (s : VState) (g : GuildId) (tmp : FileId)
    (B : GuildId) (hne : B ≠ g) (htg : tmp.1 = g) (hwf : ConnWF s) :
    mlookup (errorFire s g tmp).connections B = mlookup s.connections B
    ∧ mlookup (errorFire s g tmp).disconnectTimers B =
        mlookup s.disconnectTimers B
    ∧ (∀ f : FileId, f.1 = B → (f ∈ (errorFire s g tmp).files ↔ f ∈ s.files))
    ∧ ConnWF (errorFire s g tmp) := by
  unfold errorFire
  cases hc : mlookup s.connections g with
  | none => exact ⟨rfl, rfl, fun f _ => Iff.rfl, hwf⟩
  | some cd =>
    have herrg : cd.errTmp.1 = g := hwf g cd hc
    have hif := idleFire_frame
      (scheduleDisconnect (unlinkF s cd.errTmp) g) g tmp B hne htg
    have hwf2 : ConnWF (scheduleDisconnect (unlinkF s cd.errTmp) g) := by
      intro g2 cd2 hcd2
      simp only [scheduleDisconnect_connections, unlinkF_connections] at hcd2
      exact hwf g2 cd2 hcd2
    have h := hif hwf2
    refine ⟨?_, ?_, ?_, h.2.2.2⟩
    · rw [h.1]
      simp [scheduleDisconnect, unlinkF_connections]
    · rw [h.2.1]
      simp only [scheduleDisconnect, unlinkF_disconnectTimers]
      exact mlookup_mset_ne _ _ _ _ hne
    · intro f hf
      have hfe : f ≠ cd.errTmp := by
        intro he
        apply hne
        rw [← hf, he, herrg]
      rw [h.2.2.1 f hf]
      simp only [scheduleDisconnect_files]
      exact unlinkF_mem_files s cd.errTmp f hfe

theorem timerFire_frame (s : VState) (g : GuildId)
    (B : GuildId) (hne : B ≠ g) (hwf : ConnWF s) :
    mlookup (timerFire s g).connections B = mlookup s.connections B
    ∧ mlookup (timerFire s g).disconnectTimers B =
        mlookup s.disconnectTimers B
    ∧ (timerFire s g).files = s.files
    ∧ ConnWF (timerFire s g) := by
  unfold timerFire
  cases ht : mlookup s.disconnectTimers g with
  | none => exact ⟨rfl, rfl, rfl, hwf⟩
  | some d =>
    dsimp only
    by_cases hd : s.now = d
    · rw [if_pos hd]
      cases hc : mlookup s.connections g with
      | none => exact ⟨rfl, rfl, rfl, hwf⟩
      | some cd =>
        refine ⟨mlookup_mdel_ne _ _ _ hne, mlookup_mdel_ne _ _ _ hne, rfl, ?_⟩
        intro g2 cd2 hcd2
        simp only [VState.connections] at hcd2
        by_cases hg2 : g2 = g
        · subst hg2
          rw [mlookup_mdel_self] at hcd2
          cases hcd2
        · rw [mlookup_mdel_ne _ _ _ hg2] at hcd2
          exact hwf g2 cd2 hcd2
    · rw [if_neg hd]
      exact ⟨rfl, rfl, rfl, hwf⟩

theorem disconnect_frame (s : VState) (g : GuildId)
    (B : GuildId) (hne : B ≠ g) (hwf : ConnWF s) :
    mlookup (disconnect s g).1.connections B = mlookup s.connections B
    ∧ mlookup (disconnect s g).1.disconnectTimers B =
        mlookup s.disconnectTimers B
    ∧ (disconnect s g).1.files = s.files
    ∧ ConnWF (disconnect s g).1 := by
  unfold disconnect
  cases hc : mlookup s.connections g with
  | none => exact ⟨rfl, rfl, rfl, hwf⟩
  | some cd =>
    refine ⟨mlookup_mdel_ne _ _ _ hne, mlookup_mdel_ne _ _ _ hne, rfl, ?_⟩
    intro g2 cd2 hcd2
    simp only [VState.connections] at hcd2
    by_cases hg2 : g2 = g
    · subst hg2
      rw [mlookup_mdel_self] at hcd2
      cases hcd2
    · rw [mlookup_mdel_ne _ _ _ hg2] at hcd2
      exact hwf g2 cd2 hcd2

theorem stepAct_frame (s : VState) (a : Act) (A B : GuildId)
    (hwf : ConnWF s) (ha : actsFor A a) (hne : B ≠ A) :
    mlookup (stepAct s a).connections B = mlookup s.connections B
    ∧ mlookup (stepAct s a).disconnectTimers B = mlookup s.disconnectTimers B
    ∧ (∀ f : FileId, f.1 = B → (f ∈ (stepAct s a).files ↔ f ∈ s.files))
    ∧ ConnWF (stepAct s a) := by
  cases a with
  | play g tmp o =>
    obtain ⟨hg, htmp⟩ := ha
    subst hg
    have h := playAudio_frame s g tmp o B hne htmp hwf
    simp only [stepAct]
    exact ⟨h.1, by rw [playAudio_disconnectTimers], h.2.1, h.2.2⟩
  | finish g tmp =>
    obtain ⟨hg, htmp⟩ := ha
    subst hg
    simp only [stepAct]
    exact idleFire_frame s g tmp B hne htmp hwf
  | errorAt g tmp =>
    obtain ⟨hg, htmp⟩ := ha
    subst hg
    simp only [stepAct]
    exact errorFire_frame s g tmp B hne htmp hwf
  | fire g =>
    cases ha
    have h := timerFire_frame s A B hne hwf
    simp only [stepAct]
    exact ⟨h.1, h.2.1, fun f _ => by rw [h.2.2.1], h.2.2.2⟩
  | stop g =>
    cases ha
    have h := disconnect_frame s A B hne hwf
    simp only [stepAct]
    exact ⟨h.1, h.2.1, fun f _ => by rw [h.2.2.1], h.2.2.2⟩
  | tick n =>
    exact ⟨rfl, rfl, fun f _ => Iff.rfl, hwf⟩

/-- C8: guild isolation: any sequence of guild-A voice operations
(`playAudio` with any outcome, the completion and error handlers, the idle
timer firing, explicit `disconnect`, clock ticks) leaves guild B's session
map entry, idle-timer map entry, and temporary files untouched, for every
B distinct from A. Side conditions: the state satisfies the handler-capture
well-formedness `ConnWF` and the A-operations use A-created temp files, as
in every reachable state. -/
theorem guild_isolation (s : VState) (acts : List Act) (A B : GuildId)
    (hwf : ConnWF s) (hacts : ∀ a ∈ acts, actsFor A a) (hne : B ≠ A) :
    mlookup (runActs s acts).connections B = mlookup s.connections B
    ∧ mlookup (runActs s acts).disconnectTimers B =
        mlookup s.disconnectTimers B
    ∧ ∀ f : FileId, f.1 = B → (f ∈ (runActs s acts).files ↔ f ∈ s.files) := by
  induction acts generalizing s with
  | nil => exact ⟨rfl, rfl, fun f _ => Iff.rfl⟩
  | cons a rest ih =>
    have hstep := stepAct_frame s a A B hwf (hacts a (List.mem_cons_self a rest))
      hne
    have ihr := ih (stepAct s a) hstep.2.2.2
      (fun x hx => hacts x (List.mem_cons_of_mem a hx))
    have hrun : runActs s (a :: rest) = runActs (stepAct s a) rest := rfl
    rw [hrun]
    exact ⟨ihr.1.trans hstep.1, ihr.2.1.trans hstep.2.1,
      fun f hf => (ihr.2.2 f hf).trans (hstep.2.2.1 f hf)⟩

theorem guild_isolation_witness :
    mlookup (runActs (VState.mk [(2, ConnData.mk 5 6 .ready (2, 8))] [(2, 40)]
        [(2, 9)] 0 0 [])
        [.play 1 (1, 10) .success, .finish 1 (1, 10), .fire 1,
          .stop 1]).connections 2 = some (ConnData.mk 5 6 .ready (2, 8))
    ∧ mlookup (runActs (VState.mk [(2, ConnData.mk 5 6 .ready (2, 8))] [(2, 40)]
        [(2, 9)] 0 0 [])
        [.play 1 (1, 10) .success, .finish 1 (1, 10), .fire 1,
          .stop 1]).disconnectTimers 2 = some 40
    ∧ (((2, 9) : FileId) ∈ (runActs (VState.mk [(2, ConnData.mk 5 6 .ready (2, 8))]
        [(2, 40)] [(2, 9)] 0 0 [])
        [.play 1 (1, 10) .success, .finish 1 (1, 10), .fire 1,
          .stop 1]).files ↔ ((2, 9) : FileId) ∈
          ([(2, 9)] : List FileId)) := by
  have h := guild_isolation (VState.mk [(2, ConnData.mk 5 6 .ready (2, 8))]
    [(2, 40)] [(2, 9)] 0 0 [])
    [.play 1 (1, 10) .success, .finish 1 (1, 10), .fire 1, .stop 1] 1 2
    (by intro g2 cd2 hcd2; rcases g2 with _ | _ | g2 <;> simp [mlookup] at hcd2 <;> simp [← hcd2])
    (by intro a ha; fin_cases ha <;> simp [actsFor])
    (by decide)
  exact ⟨h.1.trans (by decide), h.2.1.trans (by decide), h.2.2 (2, 9) rfl⟩

end VoiceService
